import Mathlib

set_option linter.unusedSectionVars false

/-!
Verification of the reflector store (kube-runtime/src/reflector/store.rs).

The Rust code keeps a shared DashMap from ObjectRef<K> to K. We embed the
map as an association list (StoreMap) together with the invariant that it
holds at most one entry per key (keysNodup); DashMap guarantees this
structurally, and every proved operation preserves it. The object type is
K and the key type Ref (for ObjectRef<K>); the identity function
ObjectRef::from_obj lives outside this file's source and is passed as an
abstract parameter from_obj, matching the spec's assumption that identity
is given and pure.
-/

namespace Reflector

/-- The watcher event type (watcher::Event<K>) as consumed by
Writer::apply_watcher_event. -/
inductive Event (K : Type) where
  | Applied (obj : K)
  | Deleted (obj : K)
  | Restarted (objs : List K)

/-- The shared store contents: DashMap<ObjectRef<K>, K> abstracted to an
association list of (key, object) entries. -/
abbrev StoreMap (Ref K : Type) : Type := List (Ref × K)

variable {K Ref : Type} [DecidableEq Ref]

/-- Map lookup: the value stored at key k, if any (DashMap::get). -/
def lookup (s : StoreMap Ref K) (k : Ref) : Option K :=
  (s.find? fun kv => decide (kv.1 = k)).map fun kv => kv.2

/-- Key membership (HashMap::contains_key / DashMap key presence). -/
def containsKey (s : StoreMap Ref K) (k : Ref) : Bool :=
  s.any fun kv => decide (kv.1 = k)

/-- Map insert: associate k with v, replacing any existing entry for k
(DashMap::insert / HashMap::insert). -/
def insertKV (s : StoreMap Ref K) (k : Ref) (v : K) : StoreMap Ref K :=
  (s.filter fun kv => decide (kv.1 ≠ k)) ++ [(k, v)]

/-- Map remove: drop the entry for k if present (DashMap::remove). -/
def removeKV (s : StoreMap Ref K) (k : Ref) : StoreMap Ref K :=
  s.filter fun kv => decide (kv.1 ≠ k)

/-- Insert every entry of l into init, in list order (the for-loop of the
Restarted arm, and the collect step when init is empty). -/
def insFold (init : StoreMap Ref K) (l : List (Ref × K)) : StoreMap Ref K :=
  l.foldl (fun acc kv => insertKV acc kv.1 kv.2) init

/-- The intermediate HashMap of the Restarted arm:
new_objs.iter().map(|obj| (ObjectRef::from_obj(obj), obj)).collect::<HashMap<_,_>>().
Collecting inserts pairs in list order, so duplicate keys resolve
last-write-wins. -/
def buildNewObjs (from_obj : K → Ref) (objs : List K) : StoreMap Ref K :=
  insFold [] (objs.map fun o => (from_obj o, o))

/-- Phase 1 of the Restarted arm:
self.store.retain(|key, _old_value| new_objs.contains_key(key)). -/
def retainPhase (from_obj : K → Ref) (s : StoreMap Ref K) (objs : List K) :
    StoreMap Ref K :=
  s.filter fun kv => containsKey (buildNewObjs from_obj objs) kv.1

/-- Writer::apply_watcher_event: apply one watcher event to the store. -/
def apply_watcher_event (from_obj : K → Ref) (s : StoreMap Ref K) :
    Event K → StoreMap Ref K
  | .Applied obj => insertKV s (from_obj obj) obj
  | .Deleted obj => removeKV s (from_obj obj)
  | .Restarted new_objs =>
      insFold (retainPhase from_obj s new_objs) (buildNewObjs from_obj new_objs)

/-- Store::get: clone of the entry at key, if present. -/
def get (s : StoreMap Ref K) (k : Ref) : Option K :=
  lookup s k

/-- Store::state: the list of current values. -/
def state (s : StoreMap Ref K) : List K :=
  s.map fun kv => kv.2

/-- Store::iter: the entries of the backing map. -/
def iter (s : StoreMap Ref K) : List (Ref × K) :=
  s

/-- Writer::as_reader: a read handle over the same backing store. -/
def as_reader (s : StoreMap Ref K) : StoreMap Ref K :=
  s

/-- Store::clone: a new reference to the same backing store. -/
def cloneStore (s : StoreMap Ref K) : StoreMap Ref K :=
  s

/-- The invariant DashMap provides structurally: at most one entry per key. -/
abbrev keysNodup (s : StoreMap Ref K) : Prop :=
  (s.map Prod.fst).Nodup

/-- The last object of objs whose identity equals k (the spec's
characterization of the Restarted outcome at key k). -/
def lastWith (from_obj : K → Ref) (objs : List K) (k : Ref) : Option K :=
  (objs.filter fun o => decide (from_obj o = k)).getLast?

/-- The sequence of store contents a reader can observe while one Restarted
event is processed: the prior contents, the contents after the retain
(purge) phase, and the contents after each insert of the insert phase, in
the order the code performs them. -/
def restartedIntermediates (from_obj : K → Ref) (s : StoreMap Ref K)
    (objs : List K) : List (StoreMap Ref K) :=
  s :: List.scanl (fun acc kv => insertKV acc kv.1 kv.2)
    (retainPhase from_obj s objs) (buildNewObjs from_obj objs)

/-- The operations of the core API surface. -/
inductive StoreOp (K Ref : Type) where
  | applyEvent (e : Event K)
  | asReader
  | getOp (k : Ref)
  | stateOp
  | iterOp
  | cloneOp

/-- Result values returned by the operations. -/
inductive OpResult (K Ref : Type) where
  | unitRes
  | readerRes (s : StoreMap Ref K)
  | valueRes (v : Option K)
  | valuesRes (vs : List K)
  | entriesRes (es : List (Ref × K))

/-- One API call, given an explicit error channel mirroring a fallible
signature; none of the source operations has an error path, so every arm
is ok. -/
def runOp (from_obj : K → Ref) (s : StoreMap Ref K) :
    StoreOp K Ref → Except String (StoreMap Ref K × OpResult K Ref)
  | .applyEvent e => .ok (apply_watcher_event from_obj s e, .unitRes)
  | .asReader => .ok (s, .readerRes (as_reader s))
  | .getOp k => .ok (s, .valueRes (get s k))
  | .stateOp => .ok (s, .valuesRes (state s))
  | .iterOp => .ok (s, .entriesRes (iter s))
  | .cloneOp => .ok (s, .readerRes (cloneStore s))

/-- A concrete store over keys Nat and objects (key, payload) : Nat x Nat,
used to instantiate the theorems at concrete inputs. -/
def exS : StoreMap Nat (Nat × Nat) :=
  [(1, (1, 7)), (2, (2, 5))]

/-- A concrete resync list: key 2 is absent (to be purged), key 3 is new,
and key 1 occurs twice with different payloads (duplicate-key case). -/
def exObjs : List (Nat × Nat) :=
  [(1, 8), (3, 4), (1, 9)]

lemma find?_filter_of_imp (l : List α) (p q : α → Bool)
    (h : ∀ a, p a = true → q a = true) :
    (l.filter q).find? p = l.find? p := by
  induction l with
  | nil => rfl
  | cons a t ih =>
      by_cases hq : q a = true
      · by_cases hp : p a = true
        · simp [List.filter_cons, hq, List.find?_cons, hp]
        · simp only [Bool.not_eq_true] at hp
          simp [List.filter_cons, hq, List.find?_cons, hp, ih]
      · simp only [Bool.not_eq_true] at hq
        have hp : p a = false := by
          cases hpa : p a with
          | false => rfl
          | true => exact absurd (h a hpa) (by simp [hq])
        simp [List.filter_cons, hq, List.find?_cons, hp, ih]

lemma lookup_insertKV (s : StoreMap Ref K) (k : Ref) (v : K) (q : Ref) :
    lookup (insertKV s k v) q = if q = k then some v else lookup s q := by
  unfold lookup insertKV
  rw [List.find?_append]
  by_cases h : q = k
  · subst h
    have hnone : (s.filter fun kv => decide (kv.1 ≠ q)).find?
        (fun kv => decide (kv.1 = q)) = none := by
      rw [List.find?_eq_none]
      intro x hx
      rcases List.mem_filter.mp hx with ⟨_, hxq⟩
      simp only [decide_eq_true_eq] at hxq ⊢
      exact hxq
    simp [hnone]
  · have hone : ([(k, v)].find? fun kv => decide (kv.1 = q)) = none := by
      simp [List.find?_cons, Ne.symm h]
    rw [hone, Option.or_none,
      find?_filter_of_imp s (fun kv => decide (kv.1 = q))
        (fun kv => decide (kv.1 ≠ k))]
    · simp [h]
    · intro a ha
      simp only [decide_eq_true_eq] at ha ⊢
      rw [ha]
      exact h

lemma lookup_removeKV (s : StoreMap Ref K) (k : Ref) (q : Ref) :
    lookup (removeKV s k) q = if q = k then none else lookup s q := by
  unfold lookup removeKV
  by_cases h : q = k
  · subst h
    have hnone : (s.filter fun kv => decide (kv.1 ≠ q)).find?
        (fun kv => decide (kv.1 = q)) = none := by
      rw [List.find?_eq_none]
      intro x hx
      rcases List.mem_filter.mp hx with ⟨_, hxq⟩
      simp only [decide_eq_true_eq] at hxq ⊢
      exact hxq
    simp [hnone]
  · rw [find?_filter_of_imp s (fun kv => decide (kv.1 = q))
      (fun kv => decide (kv.1 ≠ k))]
    · simp [h]
    · intro a ha
      simp only [decide_eq_true_eq] at ha ⊢
      rw [ha]
      exact h

lemma lookup_insFold (l : List (Ref × K)) (m : StoreMap Ref K) (k : Ref) :
    lookup (insFold m l) k =
      ((l.reverse.find? fun kv => decide (kv.1 = k)).map fun kv => kv.2).or
        (lookup m k) := by
  induction l generalizing m with
  | nil => simp [insFold]
  | cons kv t ih =>
      have hstep : insFold m (kv :: t) = insFold (insertKV m kv.1 kv.2) t := rfl
      rw [hstep, ih, List.reverse_cons, List.find?_append, lookup_insertKV]
      cases hfind : t.reverse.find? fun kv' => decide (kv'.1 = k) with
      | some a => simp [hfind]
      | none =>
          by_cases h : kv.1 = k
          · subst h
            rw [List.find?_cons_of_pos _ (by simp)]
            simp [hfind]
          · have h' : ¬ k = kv.1 := fun hc => h hc.symm
            rw [List.find?_cons_of_neg _ (by simpa using h)]
            simp [hfind, h']

lemma lookup_buildNewObjs (from_obj : K → Ref) (objs : List K) (k : Ref) :
    lookup (buildNewObjs from_obj objs) k =
      objs.reverse.find? fun o => decide (from_obj o = k) := by
  unfold buildNewObjs
  rw [lookup_insFold]
  have h1 : lookup ([] : StoreMap Ref K) k = none := rfl
  rw [h1, Option.or_none, ← List.map_reverse, List.find?_map, Option.map_map]
  have h2 : ((fun kv : Ref × K => decide (kv.1 = k)) ∘ fun o => (from_obj o, o)) =
      fun o => decide (from_obj o = k) := rfl
  have h3 : ((fun kv : Ref × K => kv.2) ∘ fun o => (from_obj o, o)) =
      fun o : K => o := rfl
  rw [h2, h3, Option.map_id']

lemma containsKey_iff (s : StoreMap Ref K) (k : Ref) :
    containsKey s k = true ↔ (lookup s k).isSome = true := by
  unfold containsKey lookup
  rw [List.any_eq_true]
  cases hf : s.find? fun kv => decide (kv.1 = k) with
  | none =>
      rw [List.find?_eq_none] at hf
      simp only [Option.map_none', Option.isSome_none]
      constructor
      · rintro ⟨x, hx, hpx⟩
        exact absurd hpx (hf x hx)
      · intro h
        exact absurd h (by simp)
  | some a =>
      simp only [Option.map_some', Option.isSome_some, iff_true]
      refine ⟨a, List.mem_of_find?_eq_some hf, ?_⟩
      simpa using List.find?_some hf

lemma containsKey_eq_isSome_lookup (s : StoreMap Ref K) (k : Ref) :
    containsKey s k = (lookup s k).isSome := by
  rw [Bool.eq_iff_iff]
  exact containsKey_iff s k

lemma containsKey_buildNewObjs_iff (from_obj : K → Ref) (objs : List K) (k : Ref) :
    containsKey (buildNewObjs from_obj objs) k = true ↔ k ∈ objs.map from_obj := by
  rw [containsKey_eq_isSome_lookup, lookup_buildNewObjs, List.find?_isSome]
  constructor
  · rintro ⟨o, ho, hp⟩
    exact List.mem_map.mpr ⟨o, List.mem_reverse.mp ho, by simpa using hp⟩
  · intro hm
    rcases List.mem_map.mp hm with ⟨o, ho, rfl⟩
    exact ⟨o, List.mem_reverse.mpr ho, by simp⟩

lemma getLast?_filter_eq_find?_reverse (l : List α) (p : α → Bool) :
    (l.filter p).getLast? = l.reverse.find? p := by
  induction l with
  | nil => rfl
  | cons a t ih =>
      rw [List.reverse_cons, List.find?_append, ← ih, List.filter_cons]
      by_cases h : p a = true
      · rw [if_pos h]
        have h1 : ([a].find? p) = some a := by simp [List.find?_cons, h]
        rw [h1, List.getLast?_cons]
        cases hg : (t.filter p).getLast? with
        | none => simp [hg]
        | some b => simp [hg]
      · have h1 : ([a].find? p) = none := List.find?_cons_of_neg _ h
        simp [h, h1]

lemma lastWith_eq_find?_reverse (from_obj : K → Ref) (objs : List K) (k : Ref) :
    lastWith from_obj objs k = objs.reverse.find? fun o => decide (from_obj o = k) :=
  getLast?_filter_eq_find?_reverse objs _

lemma keysNodup_filter (s : StoreMap Ref K) (q : Ref × K → Bool)
    (h : keysNodup s) : keysNodup (s.filter q) :=
  List.Nodup.sublist (List.Sublist.map Prod.fst (List.filter_sublist s)) h

lemma keysNodup_insertKV (s : StoreMap Ref K) (k : Ref) (v : K)
    (h : keysNodup s) : keysNodup (insertKV s k v) := by
  unfold insertKV keysNodup
  rw [List.map_append, List.nodup_append]
  refine ⟨keysNodup_filter s _ h, List.nodup_singleton k, ?_⟩
  intro x hx1 hx2
  rcases List.mem_map.mp hx1 with ⟨kv, hkv, rfl⟩
  rcases List.mem_filter.mp hkv with ⟨_, hkq⟩
  simp only [decide_eq_true_eq] at hkq
  exact hkq (by simpa using hx2)

lemma keysNodup_insFold (l : List (Ref × K)) (m : StoreMap Ref K)
    (h : keysNodup m) : keysNodup (insFold m l) := by
  induction l generalizing m with
  | nil => exact h
  | cons kv t ih => exact ih _ (keysNodup_insertKV m kv.1 kv.2 h)

lemma keysNodup_buildNewObjs (from_obj : K → Ref) (objs : List K) :
    keysNodup (buildNewObjs from_obj objs) :=
  keysNodup_insFold _ _ List.nodup_nil

lemma keysNodup_apply_watcher_event (from_obj : K → Ref) (s : StoreMap Ref K)
    (e : Event K) (h : keysNodup s) :
    keysNodup (apply_watcher_event from_obj s e) := by
  cases e with
  | Applied obj => exact keysNodup_insertKV s _ _ h
  | Deleted obj => exact keysNodup_filter s _ h
  | Restarted objs => exact keysNodup_insFold _ _ (keysNodup_filter s _ h)

lemma find?_key_of_perm {l₁ l₂ : List (Ref × K)} (hperm : l₁.Perm l₂)
    (h : (l₁.map Prod.fst).Nodup) (k : Ref) :
    (l₁.find? fun kv => decide (kv.1 = k)) =
      (l₂.find? fun kv => decide (kv.1 = k)) := by
  cases h₁ : l₁.find? fun kv => decide (kv.1 = k) with
  | none =>
      rw [List.find?_eq_none] at h₁
      symm
      rw [List.find?_eq_none]
      intro x hx
      exact h₁ x (hperm.mem_iff.mpr hx)
  | some a =>
      have ha1 : a ∈ l₁ := List.mem_of_find?_eq_some h₁
      have hpa : a.1 = k := by simpa using List.find?_some h₁
      cases h₂ : l₂.find? fun kv => decide (kv.1 = k) with
      | none =>
          rw [List.find?_eq_none] at h₂
          exact absurd (show (decide (a.1 = k)) = true by simp [hpa])
            (h₂ a (hperm.mem_iff.mp ha1))
      | some b =>
          have hb2 : b ∈ l₁ := hperm.mem_iff.mpr (List.mem_of_find?_eq_some h₂)
          have hpb : b.1 = k := by simpa using List.find?_some h₂
          rw [List.inj_on_of_nodup_map h ha1 hb2 (hpa.trans hpb.symm)]

lemma lookup_retainPhase (from_obj : K → Ref) (s : StoreMap Ref K)
    (objs : List K) (k : Ref) :
    lookup (retainPhase from_obj s objs) k =
      if k ∈ objs.map from_obj then lookup s k else none := by
  by_cases hk : k ∈ objs.map from_obj
  · rw [if_pos hk]
    unfold lookup retainPhase
    rw [find?_filter_of_imp]
    intro a ha
    simp only [decide_eq_true_eq] at ha
    rw [ha]
    exact (containsKey_buildNewObjs_iff from_obj objs k).mpr hk
  · rw [if_neg hk]
    unfold lookup retainPhase
    have hnone : (s.filter fun kv =>
        containsKey (buildNewObjs from_obj objs) kv.1).find?
        (fun kv => decide (kv.1 = k)) = none := by
      rw [List.find?_eq_none]
      intro x hx hpx
      rcases List.mem_filter.mp hx with ⟨_, hq⟩
      simp only [decide_eq_true_eq] at hpx
      rw [hpx] at hq
      exact hk ((containsKey_buildNewObjs_iff from_obj objs k).mp hq)
    rw [hnone]
    rfl

lemma lookup_restarted (from_obj : K → Ref) (s : StoreMap Ref K)
    (objs : List K) (k : Ref) :
    lookup (apply_watcher_event from_obj s (Event.Restarted objs)) k =
      lastWith from_obj objs k := by
  show lookup (insFold (retainPhase from_obj s objs) (buildNewObjs from_obj objs)) k = _
  rw [lookup_insFold, lastWith_eq_find?_reverse]
  by_cases hmem : k ∈ objs.map from_obj
  · have hnodup : keysNodup (buildNewObjs from_obj objs) :=
      keysNodup_buildNewObjs from_obj objs
    have hrev : ((buildNewObjs from_obj objs).reverse.map Prod.fst).Nodup :=
      (((List.reverse_perm (buildNewObjs from_obj objs)).map Prod.fst).symm).nodup hnodup
    rw [find?_key_of_perm (List.reverse_perm _) hrev k]
    have hlk : ((buildNewObjs from_obj objs).find? fun kv => decide (kv.1 = k)).map
        (fun kv => kv.2) = lookup (buildNewObjs from_obj objs) k := rfl
    rw [hlk, lookup_buildNewObjs]
    apply Option.or_of_isSome
    rw [List.find?_isSome]
    rcases List.mem_map.mp hmem with ⟨o, ho, rfl⟩
    exact ⟨o, List.mem_reverse.mpr ho, by simp⟩
  · have h3 : (objs.reverse.find? fun o => decide (from_obj o = k)) = none := by
      rw [List.find?_eq_none]
      intro o ho hpo
      exact hmem (List.mem_map.mpr ⟨o, List.mem_reverse.mp ho, by simpa using hpo⟩)
    have hb : lookup (buildNewObjs from_obj objs) k = none := by
      rw [lookup_buildNewObjs]
      exact h3
    have hbf : ((buildNewObjs from_obj objs).find? fun kv => decide (kv.1 = k)) =
        none := by
      cases hf : (buildNewObjs from_obj objs).find? fun kv => decide (kv.1 = k) with
      | none => rfl
      | some a =>
          unfold lookup at hb
          rw [hf] at hb
          exact absurd hb (by simp)
    have h1 : ((buildNewObjs from_obj objs).reverse.find?
        fun kv => decide (kv.1 = k)) = none := by
      rw [List.find?_eq_none] at hbf ⊢
      intro x hx
      exact hbf x (List.mem_reverse.mp hx)
    have h2 : lookup (retainPhase from_obj s objs) k = none := by
      rw [lookup_retainPhase, if_neg hmem]
    rw [h1, h2, h3]
    rfl

lemma scanl_getLast?_eq_foldl (g : β → α → β) (l : List α) (b : β) :
    (List.scanl g b l).getLast? = some (l.foldl g b) := by
  induction l generalizing b with
  | nil => rfl
  | cons x t ih =>
      rw [List.scanl_cons, List.getLast?_append, ih]
      rfl

lemma lookup_isSome_of_mem_scanl (l : List (Ref × K)) (b : StoreMap Ref K)
    (st : StoreMap Ref K)
    (hst : st ∈ List.scanl (fun acc kv => insertKV acc kv.1 kv.2) b l)
    (k : Ref) (hb : (lookup b k).isSome = true) :
    (lookup st k).isSome = true := by
  induction l generalizing b with
  | nil =>
      rw [List.scanl_nil] at hst
      rw [List.mem_singleton.mp hst]
      exact hb
  | cons kv t ih =>
      rw [List.scanl_cons] at hst
      rcases List.mem_append.mp hst with h1 | h2
      · rw [List.mem_singleton.mp h1]
        exact hb
      · refine ih _ h2 ?_
        rw [lookup_insertKV]
        by_cases h : k = kv.1
        · simp [h]
        · simpa [h] using hb

/-- C1: after applying Restarted(list), every key not among the identities
of the list reads back none, and every key that is the identity of some
listed object reads back the last object in the list whose identity equals
that key (duplicate keys resolve last-write-wins in list order). -/
theorem restarted_lookup_spec (from_obj : K → Ref) (s : StoreMap Ref K)
    (objs : List K) (k : Ref) :
    (k ∉ objs.map from_obj →
      get (apply_watcher_event from_obj s (Event.Restarted objs)) k = none) ∧
    (k ∈ objs.map from_obj →
      get (apply_watcher_event from_obj s (Event.Restarted objs)) k =
        lastWith from_obj objs k) := by
  constructor
  · intro hk
    show lookup _ _ = none
    rw [lookup_restarted, lastWith_eq_find?_reverse, List.find?_eq_none]
    intro o ho hpo
    exact hk (List.mem_map.mpr ⟨o, List.mem_reverse.mp ho, by simpa using hpo⟩)
  · intro _
    exact lookup_restarted from_obj s objs k

/-- Witness for C1 at a concrete store and resync list: key 2 is purged,
and the duplicated key 1 reads back the last listed object (1, 9). -/
theorem restarted_lookup_spec_witness :
    ((2 : Nat) ∉ exObjs.map Prod.fst ∧
      get (apply_watcher_event Prod.fst exS (Event.Restarted exObjs)) 2 = none) ∧
    ((1 : Nat) ∈ exObjs.map Prod.fst ∧
      get (apply_watcher_event Prod.fst exS (Event.Restarted exObjs)) 1 =
        lastWith Prod.fst exObjs 1) :=
  ⟨⟨by decide, (restarted_lookup_spec Prod.fst exS exObjs 2).1 (by decide)⟩,
   ⟨by decide, (restarted_lookup_spec Prod.fst exS exObjs 1).2 (by decide)⟩⟩

/-- C2: Restarted processing is two-phase, purge before insert. The purge
phase removes exactly the entries whose key is not in the desired key set,
and at every intermediate state of the processing, a key that is in the
desired key set and was present before stays present; the last
intermediate state is the final result of the event. -/
theorem restarted_two_phase (from_obj : K → Ref) (s : StoreMap Ref K)
    (objs : List K) :
    (∀ k, lookup (retainPhase from_obj s objs) k =
        if k ∈ objs.map from_obj then lookup s k else none) ∧
    (∀ st ∈ restartedIntermediates from_obj s objs, ∀ k,
        k ∈ objs.map from_obj → (lookup s k).isSome = true →
          (lookup st k).isSome = true) ∧
    (restartedIntermediates from_obj s objs).getLast? =
      some (apply_watcher_event from_obj s (Event.Restarted objs)) := by
  refine ⟨fun k => lookup_retainPhase from_obj s objs k, ?_, ?_⟩
  · intro st hst k hk hsome
    rcases List.mem_cons.mp hst with rfl | hst'
    · exact hsome
    · refine lookup_isSome_of_mem_scanl _ _ st hst' k ?_
      rw [lookup_retainPhase, if_pos hk]
      exact hsome
  · show (s :: List.scanl _ _ _).getLast? = _
    rw [List.getLast?_cons, scanl_getLast?_eq_foldl]
    rfl

/-- Witness for C2: in the concrete run, the state right after the purge
phase is an intermediate state, and the valid key 1 is still present in
it. -/
theorem restarted_two_phase_witness :
    retainPhase Prod.fst exS exObjs ∈ restartedIntermediates Prod.fst exS exObjs ∧
    (1 : Nat) ∈ exObjs.map Prod.fst ∧
    (lookup exS 1).isSome = true ∧
    (lookup (retainPhase Prod.fst exS exObjs) 1).isSome = true :=
  ⟨by decide, by decide, by decide,
    (restarted_two_phase Prod.fst exS exObjs).2.1 _ (by decide) 1 (by decide)
      (by decide)⟩

/-- C3: after Applied(o), get at identity(o) returns o; the stored value is
the full new object, with no field-level merge. -/
theorem applied_get (from_obj : K → Ref) (s : StoreMap Ref K) (o : K) :
    get (apply_watcher_event from_obj s (Event.Applied o)) (from_obj o) = some o := by
  show lookup (insertKV s (from_obj o) o) (from_obj o) = some o
  rw [lookup_insertKV]
  simp

/-- C4: after Deleted(o), get at identity(o) returns none, whether or not
the key was present before; deletion of an absent key is a no-op, not an
error. -/
theorem deleted_get (from_obj : K → Ref) (s : StoreMap Ref K) (o : K) :
    get (apply_watcher_event from_obj s (Event.Deleted o)) (from_obj o) = none := by
  show lookup (removeKV s (from_obj o)) (from_obj o) = none
  rw [lookup_removeKV]
  simp

/-- C5: the store holds at most one value per key, every watcher event
preserves this, and the length of state() equals the number of distinct
keys present at completion. -/
theorem store_at_most_one_value_per_key (from_obj : K → Ref)
    (s : StoreMap Ref K) (e : Event K) (h : keysNodup s) :
    keysNodup (apply_watcher_event from_obj s e) ∧
    (state (apply_watcher_event from_obj s e)).length =
      ((apply_watcher_event from_obj s e).map Prod.fst).toFinset.card := by
  refine ⟨keysNodup_apply_watcher_event from_obj s e h, ?_⟩
  rw [List.toFinset_card_of_nodup (keysNodup_apply_watcher_event from_obj s e h)]
  simp [state]

/-- Witness for C5 at a concrete store and a Restarted event with a
duplicate key in the list. -/
theorem store_at_most_one_value_per_key_witness :
    keysNodup exS ∧
    (keysNodup (apply_watcher_event Prod.fst exS (Event.Restarted exObjs)) ∧
      (state (apply_watcher_event Prod.fst exS (Event.Restarted exObjs))).length =
        ((apply_watcher_event Prod.fst exS (Event.Restarted exObjs)).map
          Prod.fst).toFinset.card) :=
  ⟨by decide,
    store_at_most_one_value_per_key Prod.fst exS (Event.Restarted exObjs) (by decide)⟩

/-- C6: applying Applied(o) twice in a row yields the same store state as
applying it once. -/
theorem applied_idempotent (from_obj : K → Ref) (s : StoreMap Ref K) (o : K) :
    apply_watcher_event from_obj
        (apply_watcher_event from_obj s (Event.Applied o)) (Event.Applied o) =
      apply_watcher_event from_obj s (Event.Applied o) := by
  show insertKV (insertKV s (from_obj o) o) (from_obj o) o =
    insertKV s (from_obj o) o
  unfold insertKV
  rw [List.filter_append, List.filter_filter]
  simp

/-- C7: no operation of the core is fallible: run through an explicit
error channel, every operation returns ok on every input. -/
theorem ops_infallible (from_obj : K → Ref) (s : StoreMap Ref K)
    (op : StoreOp K Ref) :
    ∃ r, runOp from_obj s op = Except.ok r := by
  cases op <;> exact ⟨_, rfl⟩

/-- C9: Applied(o) and Deleted(o) mutate at most the entry at identity(o);
every other key reads back unchanged. -/
theorem applied_deleted_frame (from_obj : K → Ref) (s : StoreMap Ref K)
    (o : K) (k : Ref) (h : k ≠ from_obj o) :
    get (apply_watcher_event from_obj s (Event.Applied o)) k = get s k ∧
    get (apply_watcher_event from_obj s (Event.Deleted o)) k = get s k := by
  constructor
  · show lookup (insertKV s (from_obj o) o) k = lookup s k
    rw [lookup_insertKV, if_neg h]
  · show lookup (removeKV s (from_obj o)) k = lookup s k
    rw [lookup_removeKV, if_neg h]

/-- Witness for C9: applying events about the object with key 5 leaves the
entry at key 1 unchanged. -/
theorem applied_deleted_frame_witness :
    (1 : Nat) ≠ Prod.fst ((5, 5) : Nat × Nat) ∧
    (get (apply_watcher_event Prod.fst exS (Event.Applied (5, 5))) 1 = get exS 1 ∧
      get (apply_watcher_event Prod.fst exS (Event.Deleted (5, 5))) 1 = get exS 1) :=
  ⟨by decide, applied_deleted_frame Prod.fst exS (5, 5) 1 (by decide)⟩

/-- C10: the outcome of Restarted does not depend on the iteration order of
the intermediate deduplicated map: inserting its entries in any order over
the purged store yields the same contents as the event itself. -/
theorem restarted_order_independent (from_obj : K → Ref) (s : StoreMap Ref K)
    (objs : List K) (order : List (Ref × K))
    (hperm : order.Perm (buildNewObjs from_obj objs)) (k : Ref) :
    lookup (insFold (retainPhase from_obj s objs) order) k =
      lookup (apply_watcher_event from_obj s (Event.Restarted objs)) k := by
  show _ = lookup (insFold (retainPhase from_obj s objs) (buildNewObjs from_obj objs)) k
  rw [lookup_insFold, lookup_insFold]
  have hnodup : keysNodup (buildNewObjs from_obj objs) :=
    keysNodup_buildNewObjs from_obj objs
  have hpermrev : order.reverse.Perm (buildNewObjs from_obj objs).reverse :=
    ((List.reverse_perm order).trans hperm).trans (List.reverse_perm _).symm
  have hnod_order : (order.map Prod.fst).Nodup :=
    ((hperm.map Prod.fst).symm).nodup hnodup
  have hnodrev : (order.reverse.map Prod.fst).Nodup :=
    (((List.reverse_perm order).map Prod.fst).symm).nodup hnod_order
  rw [find?_key_of_perm hpermrev hnodrev k]

/-- Witness for C10: inserting the deduplicated entries in reversed order
gives the same contents at key 1 as the event itself. -/
theorem restarted_order_independent_witness :
    ([(1, (1, 9)), (3, (3, 4))] : List (Nat × (Nat × Nat))).Perm
        (buildNewObjs Prod.fst exObjs) ∧
    lookup (insFold (retainPhase Prod.fst exS exObjs) [(1, (1, 9)), (3, (3, 4))]) 1 =
      lookup (apply_watcher_event Prod.fst exS (Event.Restarted exObjs)) 1 :=
  ⟨by decide,
    restarted_order_independent Prod.fst exS exObjs [(1, (1, 9)), (3, (3, 4))]
      (by decide) 1⟩

end Reflector
